import Mathlib

/-!
Shallow embedding of the mapping/filter/export engine of `src/index.tsx`
(the excel-mapping application) and proofs of the spec's claims about it.

JavaScript records (`Mapping`, `staticValues`, row objects) are embedded as
association lists over `String` keys; JS `undefined` (absent key) is `none` of
the lookup, JS `null` stored at a key is `some none` for the mapping record and
the `Cell.null` constructor for row cells.  JS string coercion `String(v)` is
the function `jsString` / `cellToString`; `localeCompare`-based sorting is
modelled by comparing the Lean string representations (a stable sort with a
total comparator, as any conforming JS `Array.prototype.sort`).
-/

namespace ExcelMapping

/-- A raw cell value of a source row: a string, a number, or an explicit JS
`null`.  Absent cells are represented by a failed lookup (`Option.none`), not
by a constructor. -/
inductive Cell where
  | str : String → Cell
  | num : Int → Cell
  | null : Cell
deriving DecidableEq, Repr

/-- JS `String(v)` for a value `v` known to be present (string, number or
`null`). -/
def cellToString : Cell → String
  | .str s => s
  | .num n => toString n
  | .null => "null"

/-- A source row: a record mapping source headers to raw cell values.
`row[h]` in JS is `Row.get row h`; an absent key yields `none` (JS
`undefined`). -/
abbrev Row : Type := List (String × Cell)

/-- JS property read `row[k]`. -/
def Row.get (r : Row) (k : String) : Option Cell :=
  (List.find? (fun p => p.1 == k) r).map (fun p => p.2)

/-- JS `String(row[column])`: an absent cell (JS `undefined`) stringifies to
the literal `"undefined"` (line 362 of `src/index.tsx`). -/
def jsString : Option Cell → String
  | none => "undefined"
  | some c => cellToString c

/-- JS `String.prototype.trim`, modelled on the string's character list
(Lean's built-in `String.trim` goes through byte-position helpers that do not
evaluate inside proofs; this definition strips the same leading and trailing
whitespace). -/
def jsTrim (s : String) : String :=
  String.mk (((s.data.dropWhile Char.isWhitespace).reverse.dropWhile
    Char.isWhitespace).reverse)

/-- A JS object with string keys, as an ordered association list (JS objects
preserve insertion order of string keys). -/
abbrev StrMap (α : Type) : Type := List (String × α)

/-- JS property read `m[k]`: `none` models `undefined`. -/
def StrMap.get {α : Type} (m : StrMap α) (k : String) : Option α :=
  (List.find? (fun p => p.1 == k) m).map (fun p => p.2)

/-- JS spread-update `{...m, [k]: v}`: updates an existing key in place
(keeping its position) or appends a fresh key. -/
def StrMap.set {α : Type} (m : StrMap α) (k : String) (v : α) : StrMap α :=
  if List.any m (fun p => p.1 == k) then
    List.map (fun p => if p.1 == k then (k, v) else p) m
  else
    m ++ [(k, v)]

/-- JS `delete m[k]` (on a copy, as `clearStaticValue` does). -/
def StrMap.erase {α : Type} (m : StrMap α) (k : String) : StrMap α :=
  List.filter (fun p => p.1 != k) m

/-- A filter rule (interface `Filter`, lines 14-18 of `src/index.tsx`). -/
structure Filter where
  id : Int
  column : String
  value : List String
deriving DecidableEq, Repr

/-- The state slices of the `App` component that the engine reads and writes.
`mapping` values: `none` is JS `null` (explicitly unassigned), `some h` is the
assigned source header.  `staticValues` holds the literal values. -/
structure AppState where
  targetHeaders : List String
  sourceHeaders : List String
  sourceData : List Row
  mapping : StrMap (Option String)
  staticValues : StrMap String
  filters : List Filter
deriving DecidableEq

/-! ### Mapping Store operations -/

/-- `clearStaticValue` (lines 282-288). -/
def clearStaticValue (s : AppState) (header : String) : AppState :=
  { s with staticValues := s.staticValues.erase header }

/-- `handleDrop` (lines 266-275): assigns `draggedItem` to `targetHeader`
only when a drag is in progress (`draggedItem` truthy) and the dragged source
header is not already a value of `mapping`; on success the static value of the
target column is cleared. -/
def handleDrop (s : AppState) (draggedItem : Option String) (targetHeader : String) :
    AppState :=
  match draggedItem with
  | some d =>
    if d ≠ "" ∧ ¬ (List.map (fun p => p.2) s.mapping).contains (some d) then
      { s with mapping := s.mapping.set targetHeader (some d),
               staticValues := s.staticValues.erase targetHeader }
    else s
  | none => s

/-- `unmapField` (lines 277-279). -/
def unmapField (s : AppState) (targetHeader : String) : AppState :=
  { s with mapping := s.mapping.set targetHeader none }

/-- `handleStaticValueSave` (lines 296-312): with `editingStaticField` truthy,
trims the edited text; a non-empty trimmed value is stored and the source
mapping of the field is set to `null`; an empty trimmed value only clears the
static value. -/
def handleStaticValueSave (s : AppState) (editingStaticField : Option String)
    (editingStaticValue : String) : AppState :=
  match editingStaticField with
  | some f =>
    if f ≠ "" then
      let trimmedValue := jsTrim editingStaticValue
      if trimmedValue ≠ "" then
        { s with staticValues := s.staticValues.set f trimmedValue,
                 mapping := s.mapping.set f none }
      else
        clearStaticValue s f
    else s
  | none => s

/-! ### Filter Engine -/

/-- `handleAddFilter` (lines 325-327). -/
def handleAddFilter (s : AppState) (newId : Int) : AppState :=
  { s with filters := s.filters ++ [{ id := newId, column := "", value := [] }] }

/-- `handleRemoveFilter` (lines 329-331). -/
def handleRemoveFilter (s : AppState) (i : Int) : AppState :=
  { s with filters := s.filters.filter (fun f => f.id ≠ i) }

/-- `activeFilters` (line 357): rules with a chosen column and a non-empty
value list. -/
def activeFilters (fs : List Filter) : List Filter :=
  fs.filter (fun f => f.column ≠ "" ∧ f.value.length > 0)

/-- The per-rule membership test inside `generateFile` (lines 361-364):
`filter.value.includes(String(row[filter.column]))`. -/
def filterMatches (row : Row) (f : Filter) : Bool :=
  f.value.contains (jsString (row.get f.column))

/-- Row selection of `generateFile` (lines 359-366): when active rules exist,
keep the rows on which every active rule matches; otherwise the full dataset. -/
def dataToProcess (fs : List Filter) (rows : List Row) : List Row :=
  if (activeFilters fs).length > 0 then
    rows.filter (fun row => (activeFilters fs).all (fun f => filterMatches row f))
  else rows

/-- `getUniqueValuesForColumn` keeps a cell value iff it is
`!== null && !== undefined && !== ''` (line 197). -/
def keepCell : Option Cell → Bool
  | none => false
  | some .null => false
  | some (.str s) => s ≠ ""
  | some (.num _) => true

/-- Lexicographic comparison of character lists by code point: the order a
locale-free `localeCompare` induces on the strings. -/
def charListLe : List Char → List Char → Bool
  | [], _ => true
  | _ :: _, [] => false
  | a :: as, b :: bs =>
    if a.toNat = b.toNat then charListLe as bs else Nat.blt a.toNat b.toNat

theorem charListLe_total (as : List Char) : ∀ bs : List Char,
    charListLe as bs = true ∨ charListLe bs as = true := by
  induction as with
  | nil => intro bs; exact Or.inl rfl
  | cons a as ih =>
    intro bs
    cases bs with
    | nil => exact Or.inr rfl
    | cons b bs =>
      simp only [charListLe]
      by_cases h : a.toNat = b.toNat
      · rw [if_pos h, if_pos h.symm]
        exact ih bs
      · rw [if_neg h, if_neg (fun hh => h hh.symm)]
        simp only [Nat.blt_eq]
        omega

theorem charListLe_trans (as : List Char) : ∀ bs cs : List Char,
    charListLe as bs = true → charListLe bs cs = true → charListLe as cs = true := by
  induction as with
  | nil => intro bs cs h1 h2; rfl
  | cons a as ih =>
    intro bs cs h1 h2
    cases bs with
    | nil => exact absurd h1 (by simp [charListLe])
    | cons b bs =>
      cases cs with
      | nil => exact absurd h2 (by simp [charListLe])
      | cons c cs =>
        simp only [charListLe] at h1 h2 ⊢
        by_cases hab : a.toNat = b.toNat
        · by_cases hbc : b.toNat = c.toNat
          · rw [if_pos hab] at h1
            rw [if_pos hbc] at h2
            rw [if_pos (hab.trans hbc)]
            exact ih bs cs h1 h2
          · rw [if_pos hab] at h1
            rw [if_neg hbc] at h2
            rw [hab, if_neg hbc]
            exact h2
        · by_cases hbc : b.toNat = c.toNat
          · rw [if_neg hab] at h1
            rw [← hbc]
            rw [if_neg hab]
            exact h1
          · rw [if_neg hab] at h1
            rw [if_neg hbc] at h2
            simp only [Nat.blt_eq] at h1 h2
            have hac : a.toNat < c.toNat := h1.trans h2
            rw [if_neg (Nat.ne_of_lt hac)]
            simpa [Nat.blt_eq] using hac

/-- The comparator of line 199, `String(a).localeCompare(String(b))`, as the
ordering it induces on cell values (modelled as code-point lexicographic
comparison of the string representations; `localeCompare`'s collation is
locale-dependent and not specifiable further). -/
def cellLe (a b : Cell) : Prop :=
  charListLe (cellToString a).data (cellToString b).data = true

instance : DecidableRel cellLe := fun a b =>
  inferInstanceAs
    (Decidable (charListLe (cellToString a).data (cellToString b).data = true))

instance : IsTotal Cell cellLe :=
  ⟨fun a b => charListLe_total (cellToString a).data (cellToString b).data⟩

instance : IsTrans Cell cellLe :=
  ⟨fun _ _ _ h h' => charListLe_trans _ _ _ h h'⟩

/-- `new Set(values)` read back with `Array.from`: first occurrences, in
insertion order. -/
def jsSetOfList (l : List Cell) : List Cell :=
  l.foldl (fun acc c => if acc.contains c then acc else acc ++ [c]) []

/-- `getUniqueValuesForColumn` (lines 190-200): the column's cell values with
`null`/`undefined`/`''` removed, deduplicated as raw values, sorted by the
string comparator.  The JS sort is stable and the comparator total, so any
conforming implementation produces the insertion-sort result. -/
def getUniqueValuesForColumn (s : AppState) (columnName : String) : List Cell :=
  if columnName = "" ∨ s.sourceData.length = 0 then []
  else
    List.insertionSort cellLe (jsSetOfList
      (((s.sourceData.map (fun row => row.get columnName)).filter keepCell).reduceOption))

/-! ### Export Pipeline (`generateFile`, lines 349-401) -/

/-- Cell resolution of lines 372-384: the static value wins when present
(`staticValue !== undefined`), else a truthy source mapping reads the row's
cell, else the empty string; the pushed value is `cellValue ?? ""`, so a
`null`/absent cell becomes the empty string. -/
def resolveCell (mapping : StrMap (Option String)) (staticValues : StrMap String)
    (row : Row) (targetHeader : String) : Cell :=
  match staticValues.get targetHeader with
  | some staticValue => .str staticValue
  | none =>
    match mapping.get targetHeader with
    | some (some sourceHeader) =>
      if sourceHeader ≠ "" then
        match row.get sourceHeader with
        | some .null => .str ""
        | some c => c
        | none => .str ""
      else .str ""
    | _ => .str ""

/-- Outcome of a `generateFile` call: either the blocking `alert` of line 351,
or the `outputData` table handed to the serialization library. -/
inductive GenResult where
  | notice : GenResult
  | table : List (List Cell) → GenResult
deriving DecidableEq

/-- `generateFile` (lines 349-401) as a state transition returning the app
state after the call settles and its observable outcome.  The guard of line
350 blocks the export before any row processing; otherwise the table is the
target header row followed by one resolved row per selected source row.  (The
transient `isGenerating` flag is set and reset within the call; file
serialization and download are external.) -/
def generateFile (s : AppState) : AppState × GenResult :=
  if (List.map (fun p => p.2) s.mapping).all (fun v => v = none) ∧
      s.staticValues.length = 0 then
    (s, .notice)
  else
    let rows := dataToProcess s.filters s.sourceData
    let outputData := (s.targetHeaders.map Cell.str) ::
      rows.map (fun row =>
        s.targetHeaders.map (fun targetHeader =>
          resolveCell s.mapping s.staticValues row targetHeader))
    (s, .table outputData)

/-! ### Configuration cache and file loading (`handleFile`, lines 179-250) -/

/-- The JSON blob written to `localStorage` under `excelMapperConfig`
(lines 181-186). -/
structure SavedConfig where
  targetHeaders : List String
  mapping : StrMap (Option String)
  staticValues : StrMap String
deriving DecidableEq

/-- The save effect of lines 179-188: whenever a target schema is loaded, the
current configuration is written to the single storage slot; with no target
schema loaded nothing is written (the slot keeps its previous content). -/
def saveConfig (s : AppState) : Option SavedConfig :=
  if s.targetHeaders.length > 0 then
    some { targetHeaders := s.targetHeaders, mapping := s.mapping,
           staticValues := s.staticValues }
  else none

/-- Header extraction of lines 213 and 242: the first parsed row, keeping the
cells that are truthy and not blank after trimming. -/
def parseHeaders (json : List (List String)) : List String :=
  (json.headD []).filter (fun h => h ≠ "" ∧ jsTrim h ≠ "")

/-- Resetting the mapping as in lines 233-236: one `null` entry per parsed
header, inserted in order. -/
def resetMapping (headers : List String) : StrMap (Option String) :=
  headers.foldl (fun m h => m.set h none) []

/-- The `type === 'target'` branch of `handleFile` (lines 210-240), after the
external XLSX parse produced `json` (an array of rows of cells).  `saved` is
the successfully parsed content of the storage slot, `none` when the slot is
empty or its JSON does not parse (the `catch` of line 227 leaves
`loadedFromStorage` false either way).  Returns the new state and whether the
malformed-file alert fired. -/
def handleTargetFile (s : AppState) (saved : Option SavedConfig)
    (json : List (List String)) : AppState × Bool :=
  if json.length > 0 then
    let headers := parseHeaders json
    let restored :=
      match saved with
      | some cfg => if cfg.targetHeaders = headers then some cfg else none
      | none => none
    match restored with
    | some cfg =>
      ({ s with targetHeaders := headers, mapping := cfg.mapping,
                staticValues := cfg.staticValues }, false)
    | none =>
      ({ s with targetHeaders := headers, mapping := resetMapping headers,
                staticValues := [] }, false)
  else
    (s, true)

/-- The `source` branch of `handleFile` (lines 241-247), after the external
XLSX parse produced the first row `firstRow` and the data rows `rows`:
replaces the source headers and data and resets the filter list; nothing else
is touched. -/
def handleSourceFile (s : AppState) (firstRow : List String) (rows : List Row) :
    AppState :=
  { s with sourceHeaders := firstRow.filter (fun h => h ≠ "" ∧ jsTrim h ≠ ""),
           sourceData := rows,
           filters := [] }

/-! ### Helper lemmas -/

theorem StrMap.get_set_self {α : Type} (m : StrMap α) (k : String) (v : α) :
    (m.set k v).get k = some v := by
  unfold StrMap.set
  by_cases h : List.any m (fun p => p.1 == k)
  · rw [if_pos h]
    induction m with
    | nil => simp at h
    | cons p t ih =>
      by_cases hp : p.1 == k
      · simp [StrMap.get, List.find?, hp]
      · have ht : List.any t (fun p => p.1 == k) := by
          simpa [List.any_cons, hp] using h
        simpa [StrMap.get, List.find?, hp] using ih ht
  · rw [if_neg h]
    have hnone : List.find? (fun p => p.1 == k) m = none := by
      rw [List.find?_eq_none]
      intro p hp
      intro hpk
      exact h (List.any_eq_true.mpr ⟨p, hp, hpk⟩)
    simp [StrMap.get, List.find?_append, hnone, List.find?]

theorem StrMap.get_erase_self {α : Type} (m : StrMap α) (k : String) :
    (m.erase k).get k = none := by
  unfold StrMap.erase StrMap.get
  have hnone : List.find? (fun p => p.1 == k) (List.filter (fun p => p.1 != k) m) = none := by
    rw [List.find?_eq_none]
    intro p hp
    have := List.of_mem_filter hp
    simp only [bne_iff_ne, ne_eq] at this
    simp [this]
  rw [hnone]
  rfl

theorem StrMap.contains_values_of_get {α : Type} [BEq α] [LawfulBEq α]
    (m : StrMap α) (k : String) (v : α) (h : m.get k = some v) :
    (List.map (fun p => p.2) m).contains v := by
  unfold StrMap.get at h
  obtain ⟨p, hfind⟩ : ∃ p, List.find? (fun q => q.1 == k) m = some p := by
    cases hf : List.find? (fun q => q.1 == k) m with
    | none => rw [hf] at h; simp at h
    | some p => exact ⟨p, rfl⟩
  rw [hfind] at h
  simp only [Option.map] at h
  rw [Option.some_inj] at h
  have hmem : p ∈ m := List.mem_of_find?_eq_some hfind
  have hv : v ∈ List.map (fun p => p.2) m := List.mem_map.mpr ⟨p, hmem, h⟩
  simpa [List.contains] using List.elem_eq_true_of_mem hv

theorem StrMap.values_none_set (m : StrMap (Option String)) (k : String)
    (h : ∀ p ∈ m, p.2 = none) : ∀ p ∈ m.set k none, p.2 = none := by
  intro p hp
  unfold StrMap.set at hp
  by_cases hc : List.any m (fun q => q.1 == k)
  · rw [if_pos hc] at hp
    obtain ⟨q, hq, hqp⟩ := List.mem_map.mp hp
    by_cases hqk : q.1 == k
    · rw [if_pos hqk] at hqp
      rw [← hqp]
    · rw [if_neg hqk] at hqp
      exact hqp ▸ h q hq
  · rw [if_neg hc] at hp
    rcases List.mem_append.mp hp with hin | hin
    · exact h p hin
    · simp only [List.mem_singleton] at hin
      rw [hin]

theorem values_none_resetMapping (headers : List String) :
    ∀ p ∈ resetMapping headers, p.2 = none := by
  unfold resetMapping
  suffices h : ∀ (acc : StrMap (Option String)), (∀ p ∈ acc, p.2 = none) →
      ∀ p ∈ headers.foldl (fun m h => m.set h none) acc, p.2 = none by
    exact h [] (by simp)
  induction headers with
  | nil => intro acc hacc; simpa using hacc
  | cons a t ih =>
    intro acc hacc
    exact ih (acc.set a none) (StrMap.values_none_set acc a hacc)

theorem mem_jsSetOfList (l : List Cell) (x : Cell) : x ∈ jsSetOfList l ↔ x ∈ l := by
  unfold jsSetOfList
  suffices h : ∀ acc : List Cell,
      (x ∈ l.foldl (fun acc c => if acc.contains c then acc else acc ++ [c]) acc ↔
        x ∈ acc ∨ x ∈ l) by
    simpa using h []
  induction l with
  | nil => intro acc; simp
  | cons c t ih =>
    intro acc
    simp only [List.foldl_cons]
    by_cases hc : acc.contains c
    · rw [if_pos hc, ih acc]
      have hcm : c ∈ acc := by simpa using hc
      constructor
      · rintro (h | h)
        · exact Or.inl h
        · exact Or.inr (List.mem_cons_of_mem c h)
      · rintro (h | h)
        · exact Or.inl h
        · rcases List.mem_cons.mp h with rfl | h
          · exact Or.inl hcm
          · exact Or.inr h
    · rw [if_neg hc, ih (acc ++ [c])]
      simp only [List.mem_append, List.mem_singleton, List.mem_cons]
      tauto

theorem nodup_jsSetOfList (l : List Cell) : (jsSetOfList l).Nodup := by
  unfold jsSetOfList
  suffices h : ∀ acc : List Cell, acc.Nodup →
      (l.foldl (fun acc c => if acc.contains c then acc else acc ++ [c]) acc).Nodup by
    exact h [] List.nodup_nil
  induction l with
  | nil => intro acc hacc; simpa using hacc
  | cons c t ih =>
    intro acc hacc
    simp only [List.foldl_cons]
    by_cases hc : acc.contains c
    · rw [if_pos hc]; exact ih acc hacc
    · rw [if_neg hc]
      refine ih (acc ++ [c]) ?_
      have hcm : c ∉ acc := by simpa using hc
      simp [List.nodup_append, hacc, hcm]

/-! ### Concrete example data -/

/-- The state of the spec's export scenario: target `["Name","Email"]`, one
source row, `Name ← "Full Name"`, literal `Email = "n/a"`. -/
def scenarioState : AppState :=
  { targetHeaders := ["Name", "Email"],
    sourceHeaders := ["Full Name", "Mail"],
    sourceData := [[("Full Name", .str "Ana"), ("Mail", .str "ana@x.sk")]],
    mapping := [("Name", some "Full Name"), ("Email", none)],
    staticValues := [("Email", "n/a")],
    filters := [] }

/-- A small state with one assigned and one unassigned target column. -/
def twoColState : AppState :=
  { targetHeaders := ["A", "B"],
    sourceHeaders := ["X", "Y"],
    sourceData := [[("X", .str "1"), ("Y", .str "2")]],
    mapping := [("A", some "X"), ("B", none)],
    staticValues := [],
    filters := [] }

/-- A state whose column `A` holds the number `1` and the string `"1"`:
distinct raw values with equal string representations. -/
def mixedColumnState : AppState :=
  { targetHeaders := [],
    sourceHeaders := ["A"],
    sourceData := [[("A", .num 1)], [("A", .str "1")]],
    mapping := [],
    staticValues := [],
    filters := [] }

/-- A state with a target schema loaded but nothing configured: every mapping
value is `null` and no static values exist. -/
def unconfiguredState : AppState :=
  { targetHeaders := ["A"],
    sourceHeaders := ["X"],
    sourceData := [[("X", .str "1")]],
    mapping := [("A", none)],
    staticValues := [],
    filters := [] }

/-! ### Claims -/

/-- C1 counterexample: the rule `{column := "C", value := [""]}` is active and
the empty row has no `"C"` cell, so the claim says the row is selected (`""`
is in the value set); the code stringifies the absent cell to `"undefined"`
and rejects the row. -/
theorem c1_absent_cell_counterexample :
    (∀ f ∈ activeFilters [{ id := 1, column := "C", value := [""] }],
        f = { id := 1, column := "C", value := [""] }) ∧
    activeFilters [{ id := 1, column := "C", value := [""] }] ≠ [] ∧
    "" ∈ ({ id := 1, column := "C", value := [""] } : Filter).value ∧
    Row.get [] "C" = none ∧
    filterMatches [] { id := 1, column := "C", value := [""] } = false ∧
    dataToProcess [{ id := 1, column := "C", value := [""] }] [([] : Row)] = [] := by
  decide

/-- C1 amended: for a row whose cell at the rule's column is absent, the match
compares the literal string `"undefined"` against the rule's value set: the
row satisfies the rule iff `"undefined"` is a member of `rule.value`. -/
theorem c1_absent_cell_amended (row : Row) (f : Filter)
    (h : row.get f.column = none) :
    filterMatches row f = f.value.contains "undefined" := by
  unfold filterMatches jsString
  rw [h]

theorem c1_absent_cell_amended_witness :
    Row.get [] "C" = none ∧
    filterMatches [] { id := 1, column := "C", value := ["undefined"] } =
      List.contains ["undefined"] "undefined" :=
  ⟨rfl, c1_absent_cell_amended [] { id := 1, column := "C", value := ["undefined"] } rfl⟩

/-- C4: a source header `d` that is already the `FromSource` value of target
column `a` cannot be dropped on any target column `b`: the drop handler's
guard sees `d` among the mapping's values and leaves the whole state
unchanged. -/
theorem c4_duplicate_source_rejected (s : AppState) (a b d : String)
    (h : s.mapping.get a = some (some d)) :
    handleDrop s (some d) b = s := by
  have hc : (List.map (fun p => p.2) s.mapping).contains (some d) :=
    StrMap.contains_values_of_get s.mapping a (some d) h
  simp only [handleDrop]
  rw [if_neg]
  intro hcond
  exact hcond.2 hc

theorem c4_duplicate_source_rejected_witness :
    StrMap.get twoColState.mapping "A" = some (some "X") ∧
    handleDrop twoColState (some "X") "B" = twoColState :=
  ⟨rfl, c4_duplicate_source_rejected twoColState "A" "B" "X" rfl⟩

/-- C6: with every mapping value `null` and no static values, `generateFile`
takes the guard branch of line 350: the user notice fires, no table is
produced, and the state is returned unchanged (no row is processed). -/
theorem c6_export_blocked (s : AppState)
    (hm : ∀ p ∈ s.mapping, p.2 = none) (hs : s.staticValues = []) :
    generateFile s = (s, .notice) := by
  unfold generateFile
  rw [if_pos]
  constructor
  · rw [List.all_eq_true]
    intro v hv
    obtain ⟨p, hp, hpv⟩ := List.mem_map.mp hv
    simp [← hpv, hm p hp]
  · rw [hs]
    rfl

theorem c6_export_blocked_witness :
    generateFile unconfiguredState = (unconfiguredState, .notice) :=
  c6_export_blocked unconfiguredState (by decide) rfl

/-- C7: when the active-rule subsequence is empty — in particular whenever
every rule is inactive — row selection is the identity (same list, same
count); when active rules exist, the selection is `rows.filter` over the
conjunction of the active rules' matches, a sublist of `rows` (original
relative order preserved). -/
theorem c7_row_selection (fs : List Filter) (rows : List Row) :
    ((∀ f ∈ fs, f.column = "" ∨ f.value.length = 0) → activeFilters fs = []) ∧
    (activeFilters fs = [] →
      dataToProcess fs rows = rows ∧ (dataToProcess fs rows).length = rows.length) ∧
    (activeFilters fs ≠ [] →
      dataToProcess fs rows =
        rows.filter (fun row => (activeFilters fs).all (fun f => filterMatches row f)) ∧
      (dataToProcess fs rows).Sublist rows) := by
  refine ⟨?_, ?_, ?_⟩
  · intro h
    unfold activeFilters
    rw [List.filter_eq_nil_iff]
    intro f hf
    rcases h f hf with hcol | hval
    · simp [hcol]
    · simp [hval]
  · intro h
    unfold dataToProcess
    rw [h]
    simp
  · intro h
    unfold dataToProcess
    rw [if_pos]
    · exact ⟨rfl, List.filter_sublist rows⟩
    · exact List.length_pos.mpr h

theorem c7_row_selection_witness :
    activeFilters [{ id := 1, column := "", value := [] }] = [] ∧
    dataToProcess [{ id := 1, column := "", value := [] }] [([] : Row)] = [[]] ∧
    (dataToProcess [{ id := 1, column := "", value := [] }] [([] : Row)]).length =
      [([] : Row)].length :=
  ⟨(c7_row_selection [{ id := 1, column := "", value := [] }] [[]]).1 (by decide),
   ((c7_row_selection [{ id := 1, column := "", value := [] }] [[]]).2.1 (by decide)).1,
   ((c7_row_selection [{ id := 1, column := "", value := [] }] [[]]).2.1 (by decide)).2⟩

/-- C10: uploading a new source file replaces the source headers (filtered of
blank cells) and the source rows and empties the filter list, while the target
schema, the whole mapping record (whatever source headers it references) and
all literal values are left untouched. -/
theorem c10_source_upload_frame (s : AppState) (firstRow : List String)
    (rows : List Row) :
    (handleSourceFile s firstRow rows).targetHeaders = s.targetHeaders ∧
    (handleSourceFile s firstRow rows).mapping = s.mapping ∧
    (handleSourceFile s firstRow rows).staticValues = s.staticValues ∧
    (handleSourceFile s firstRow rows).filters = [] ∧
    (handleSourceFile s firstRow rows).sourceData = rows ∧
    (handleSourceFile s firstRow rows).sourceHeaders =
      firstRow.filter (fun h => h ≠ "" ∧ jsTrim h ≠ "") :=
  ⟨rfl, rfl, rfl, rfl, rfl, rfl⟩

/-- C2: a configuration saved while schema `T` is loaded is keyed by `T`'s
exact header sequence.  Loading a target file that parses to the same header
sequence restores the saved mapping and static values verbatim; loading one
that parses to a different sequence resets the mapping to all-`null` entries
(one per fresh header) and clears the static values. -/
theorem c2_config_roundtrip (s reload : AppState) (cfg : SavedConfig)
    (json : List (List String)) (hsave : saveConfig s = some cfg)
    (hjson : 0 < json.length) :
    (parseHeaders json = s.targetHeaders →
      (handleTargetFile reload (some cfg) json).1.mapping = s.mapping ∧
      (handleTargetFile reload (some cfg) json).1.staticValues = s.staticValues) ∧
    (parseHeaders json ≠ s.targetHeaders →
      (handleTargetFile reload (some cfg) json).1.mapping =
        resetMapping (parseHeaders json) ∧
      (∀ p ∈ (handleTargetFile reload (some cfg) json).1.mapping, p.2 = none) ∧
      (handleTargetFile reload (some cfg) json).1.staticValues = []) := by
  have hcfg : cfg = { targetHeaders := s.targetHeaders,
                      mapping := s.mapping,
                      staticValues := s.staticValues } := by
    unfold saveConfig at hsave
    by_cases h : s.targetHeaders.length > 0
    · rw [if_pos h] at hsave
      exact (Option.some_inj.mp hsave).symm
    · rw [if_neg h] at hsave
      exact absurd hsave (by simp)
  constructor
  · intro hsame
    unfold handleTargetFile
    rw [if_pos hjson]
    simp [hcfg, hsame]
  · intro hdiff
    unfold handleTargetFile
    rw [if_pos hjson]
    have hne : cfg.targetHeaders ≠ parseHeaders json := by
      rw [hcfg]
      exact fun h => hdiff h.symm
    simp only [if_neg hne]
    refine ⟨trivial, ?_, trivial⟩
    exact values_none_resetMapping (parseHeaders json)

/-- The configuration the save effect writes while `twoColState` is loaded. -/
def twoColSaved : SavedConfig :=
  { targetHeaders := ["A", "B"],
    mapping := [("A", some "X"), ("B", none)],
    staticValues := [] }

theorem c2_config_roundtrip_witness :
    saveConfig twoColState = some twoColSaved ∧
    (handleTargetFile scenarioState (some twoColSaved) [["A", "B"]]).1.mapping =
      twoColState.mapping ∧
    (handleTargetFile scenarioState (some twoColSaved) [["A", "B"]]).1.staticValues =
      twoColState.staticValues :=
  ⟨rfl,
   (c2_config_roundtrip twoColState scenarioState twoColSaved [["A", "B"]] rfl
      (by decide)).1 (by decide)⟩

/-- C3 (Invariant A): for a target column `c`, a fresh source header `d` and a
literal text with non-blank trim, applying the two successful operations in
either order leaves exactly one of {source mapping, literal value} active:
after drop-then-literal the mapping entry is `null` and the literal is stored;
after literal-then-drop the mapping entry is the source header and the literal
is gone. -/
theorem c3_invariant_a (s : AppState) (c d txt : String)
    (hc : c ≠ "") (hd : d ≠ "") (htxt : jsTrim txt ≠ "")
    (hfree : ¬ (List.map (fun p => p.2) s.mapping).contains (some d))
    (hfree' : ¬ (List.map (fun p => p.2) (s.mapping.set c none)).contains (some d)) :
    ((handleStaticValueSave (handleDrop s (some d) c) (some c) txt).mapping.get c =
        some none ∧
      (handleStaticValueSave (handleDrop s (some d) c) (some c) txt).staticValues.get c =
        some (jsTrim txt)) ∧
    ((handleDrop (handleStaticValueSave s (some c) txt) (some d) c).mapping.get c =
        some (some d) ∧
      (handleDrop (handleStaticValueSave s (some c) txt) (some d) c).staticValues.get c =
        none) := by
  constructor
  · have hdrop : handleDrop s (some d) c =
        { s with mapping := s.mapping.set c (some d),
                 staticValues := s.staticValues.erase c } := by
      simp only [handleDrop]
      rw [if_pos ⟨hd, hfree⟩]
    rw [hdrop]
    simp only [handleStaticValueSave]
    rw [if_pos hc, if_pos htxt]
    exact ⟨StrMap.get_set_self _ c none, StrMap.get_set_self _ c (jsTrim txt)⟩
  · have hsave : handleStaticValueSave s (some c) txt =
        { s with staticValues := s.staticValues.set c (jsTrim txt),
                 mapping := s.mapping.set c none } := by
      simp only [handleStaticValueSave]
      rw [if_pos hc, if_pos htxt]
    rw [hsave]
    simp only [handleDrop]
    rw [if_pos ⟨hd, hfree'⟩]
    exact ⟨StrMap.get_set_self _ c (some d), StrMap.get_erase_self _ c⟩

theorem c3_invariant_a_witness :
    ((handleStaticValueSave (handleDrop twoColState (some "Y") "B") (some "B")
        " n/a ").mapping.get "B" = some none ∧
      (handleStaticValueSave (handleDrop twoColState (some "Y") "B") (some "B")
        " n/a ").staticValues.get "B" = some (jsTrim " n/a ")) ∧
    ((handleDrop (handleStaticValueSave twoColState (some "B") " n/a ") (some "Y")
        "B").mapping.get "B" = some (some "Y") ∧
      (handleDrop (handleStaticValueSave twoColState (some "B") " n/a ") (some "Y")
        "B").staticValues.get "B" = none) :=
  c3_invariant_a twoColState "B" "Y" " n/a " (by decide) (by decide) (by decide)
    (by decide) (by decide)

/-- C5: a non-blocked export returns the state unchanged and a table whose
first row is the target schema verbatim (as string cells) and whose data rows
resolve each target column by strict precedence — static value first, else a
truthy source mapping's raw cell value when the row holds a non-`null` value
for that header, else the empty string — together with the spec's concrete
scenario (`Name ← "Full Name"`, literal `Email = "n/a"`). -/
theorem c5_export_table :
    (∀ s s' t, generateFile s = (s', .table t) →
      s' = s ∧
      t = (s.targetHeaders.map Cell.str) ::
        (dataToProcess s.filters s.sourceData).map (fun row =>
          s.targetHeaders.map (fun th => resolveCell s.mapping s.staticValues row th))) ∧
    (∀ m sv row th v, StrMap.get sv th = some v →
      resolveCell m sv row th = .str v) ∧
    (∀ m sv row th sh c, StrMap.get sv th = none → StrMap.get m th = some (some sh) →
      sh ≠ "" → Row.get row sh = some c → c ≠ .null →
      resolveCell m sv row th = c) ∧
    (∀ m sv row th, StrMap.get sv th = none →
      (StrMap.get m th = none ∨ StrMap.get m th = some none) →
      resolveCell m sv row th = .str "") ∧
    (∀ m sv row th sh, StrMap.get sv th = none → StrMap.get m th = some (some sh) →
      sh ≠ "" → (Row.get row sh = none ∨ Row.get row sh = some .null) →
      resolveCell m sv row th = .str "") ∧
    (generateFile scenarioState).2 =
      .table [[.str "Name", .str "Email"], [.str "Ana", .str "n/a"]] := by
  refine ⟨?_, ?_, ?_, ?_, ?_, by decide⟩
  · intro s s' t h
    unfold generateFile at h
    by_cases hg : (List.map (fun p => p.2) s.mapping).all (fun v => v = none) ∧
        s.staticValues.length = 0
    · rw [if_pos hg] at h
      exact absurd (congrArg Prod.snd h) (by simp)
    · rw [if_neg hg] at h
      have h1 := congrArg Prod.fst h
      have h2 := congrArg Prod.snd h
      simp only [] at h1 h2
      refine ⟨h1.symm, ?_⟩
      cases h2
      rfl
  · intro m sv row th v hsv
    unfold resolveCell
    rw [hsv]
  · intro m sv row th sh c hsv hm hsh hrow hc
    unfold resolveCell
    rw [hsv, hm]
    dsimp only
    rw [if_pos hsh, hrow]
    cases c with
    | str s => rfl
    | num n => rfl
    | null => exact absurd rfl hc
  · intro m sv row th hsv hm
    unfold resolveCell
    rcases hm with hm | hm
    · rw [hsv, hm]
    · rw [hsv, hm]
  · intro m sv row th sh hsv hm hsh hrow
    unfold resolveCell
    rcases hrow with hrow | hrow
    · rw [hsv, hm]
      dsimp only
      rw [if_pos hsh, hrow]
    · rw [hsv, hm]
      dsimp only
      rw [if_pos hsh, hrow]

theorem c5_export_table_witness :
    scenarioState = scenarioState ∧
    [[Cell.str "Name", Cell.str "Email"], [Cell.str "Ana", Cell.str "n/a"]] =
      (scenarioState.targetHeaders.map Cell.str) ::
        (dataToProcess scenarioState.filters scenarioState.sourceData).map (fun row =>
          scenarioState.targetHeaders.map (fun th =>
            resolveCell scenarioState.mapping scenarioState.staticValues row th)) :=
  c5_export_table.1 scenarioState scenarioState
    [[Cell.str "Name", Cell.str "Email"], [Cell.str "Ana", Cell.str "n/a"]]
    (by decide)

/-- C8 counterexample: column `A` of `mixedColumnState` holds the number `1`
and the string `"1"` — distinct raw values with equal string representations.
`getUniqueValuesForColumn` returns both raw values, so the claim's "no
duplicate strings among the stringified values" fails. -/
theorem c8_value_domain_counterexample :
    getUniqueValuesForColumn mixedColumnState "A" = [Cell.num 1, Cell.str "1"] ∧
    (getUniqueValuesForColumn mixedColumnState "A").map cellToString = ["1", "1"] ∧
    ¬ ((getUniqueValuesForColumn mixedColumnState "A").map cellToString).Nodup := by
  decide

/-- C8 amended: `getUniqueValuesForColumn` returns the distinct **raw** cell
values of the column (deduplicated by raw-value equality, so values with equal
string representations may both appear), excluding `null`, absent and
empty-string cells, sorted ascending by the string-comparison order
`cellLe`. -/
theorem c8_value_domain_amended (s : AppState) (c : String)
    (hc : c ≠ "") (hd : s.sourceData.length ≠ 0) :
    List.Sorted cellLe (getUniqueValuesForColumn s c) ∧
    (getUniqueValuesForColumn s c).Nodup ∧
    (∀ x, x ∈ getUniqueValuesForColumn s c ↔
      some x ∈ (s.sourceData.map (fun row => row.get c)).filter keepCell) := by
  unfold getUniqueValuesForColumn
  rw [if_neg (by push_neg; exact ⟨hc, hd⟩)]
  refine ⟨List.sorted_insertionSort cellLe _, ?_, ?_⟩
  · rw [(List.perm_insertionSort cellLe _).nodup_iff]
    exact nodup_jsSetOfList _
  · intro x
    rw [List.mem_insertionSort, mem_jsSetOfList, List.reduceOption_mem_iff]

theorem c8_value_domain_amended_witness :
    List.Sorted cellLe (getUniqueValuesForColumn mixedColumnState "A") ∧
    (getUniqueValuesForColumn mixedColumnState "A").Nodup :=
  ⟨(c8_value_domain_amended mixedColumnState "A" (by decide) (by decide)).1,
   (c8_value_domain_amended mixedColumnState "A" (by decide) (by decide)).2.1⟩

/-- C9 counterexample: the upload `[[" "]]` is non-empty but headerless (its
only first-row cell is blank).  The claim requires a user notice and untouched
state; the code shows no notice (`false`) and mutates the state — target
schema emptied, mapping reset, static values cleared. -/
theorem c9_headerless_counterexample :
    0 < ([[" "]] : List (List String)).length ∧
    parseHeaders [[" "]] = [] ∧
    (handleTargetFile scenarioState (some twoColSaved) [[" "]]).2 = false ∧
    (handleTargetFile scenarioState (some twoColSaved) [[" "]]).1 ≠ scenarioState ∧
    (handleTargetFile scenarioState (some twoColSaved) [[" "]]).1.targetHeaders = [] ∧
    (handleTargetFile scenarioState (some twoColSaved) [[" "]]).1.mapping = [] ∧
    (handleTargetFile scenarioState (some twoColSaved) [[" "]]).1.staticValues = [] := by
  decide

/-- C9 amended: only a target upload with **zero parsed rows** is reported to
the user and leaves the state untouched; a non-empty upload whose first row
has no non-blank cell fires no notice and silently replaces the target schema
with the empty list, resetting the mapping and clearing the static values
(whenever the cached signature — always a non-empty header list — cannot match
the empty one). -/
theorem c9_target_upload_amended (s : AppState) (saved : Option SavedConfig)
    (json : List (List String)) :
    (json.length = 0 → handleTargetFile s saved json = (s, true)) ∧
    (0 < json.length → parseHeaders json = [] →
      (∀ cfg, saved = some cfg → cfg.targetHeaders ≠ []) →
      handleTargetFile s saved json =
        ({ s with targetHeaders := [], mapping := [], staticValues := [] }, false)) := by
  constructor
  · intro h
    unfold handleTargetFile
    rw [if_neg]
    omega
  · intro hpos hempty hsig
    unfold handleTargetFile
    rw [if_pos hpos]
    cases saved with
    | none => simp [hempty, resetMapping]
    | some cfg =>
      have hne : cfg.targetHeaders ≠ [] := hsig cfg rfl
      simp [hempty, if_neg hne, resetMapping]

theorem c9_target_upload_amended_witness :
    handleTargetFile scenarioState (some twoColSaved) [] = (scenarioState, true) :=
  (c9_target_upload_amended scenarioState (some twoColSaved) []).1 rfl

end ExcelMapping
